import Mathlib

/-!
Shallow embedding of the `auto_walking_classification` pipeline
(`cal_moving_amount_by_sec.py`, `create_walking_classification_video.py`,
`plot_move_amount_per_min.py`, `evaluate.py`).

Conventions of the embedding:
* Python floats are modelled as rationals (`ℚ`); Python ints as `ℤ` (or `ℕ`
  where the source value is a non-negative count or index).
* A Python dict with int keys is modelled as an association list
  `List (Int × V)` together with `pyInsert`, which mirrors dict assignment:
  updating an existing key rewrites its binding in place, a new key is
  appended at the end (CPython insertion-order semantics).
* A text field that `float(...)` is applied to is modelled as `Option ℚ`:
  `some q` for a field that parses to the value `q`, `none` for a field that
  raises `ValueError`.
* Code paths that raise an uncaught exception (and hence abort the script)
  are modelled with `Except Unit`, `.error ()` standing for the abort.
* File names are modelled as `List Char`; Python's lexicographic string
  order coincides with the `List Char` lexicographic order used here.
-/

/-- Python `int(q)` for a rational `q`: truncation toward zero
(`int(float(...))` in the scripts). `q.num.tdiv q.den` truncates the reduced
fraction toward zero, exactly like CPython `int()` on a finite float. -/
def pyTrunc (q : ℚ) : ℤ :=
  q.num.tdiv q.den

/-- Computable floor of a rational (used to express `math.ceil` below and to
bridge to Mathlib's `Int.floor` in proofs). -/
def ratFloor (q : ℚ) : ℤ :=
  q.num.fdiv q.den

/-- Python `math.ceil(q)` on a rational. -/
def ratCeil (q : ℚ) : ℤ :=
  -ratFloor (-q)

theorem ratFloor_eq_floor (q : ℚ) : ratFloor q = ⌊q⌋ := by
  rw [Rat.floor_def, ratFloor, Int.fdiv_eq_ediv]
  exact_mod_cast Int.natCast_nonneg q.den

theorem ratCeil_eq_ceil (q : ℚ) : ratCeil q = ⌈q⌉ := by
  rw [ratCeil, ratFloor_eq_floor, Int.floor_neg, neg_neg]

theorem pyTrunc_eq_floor (q : ℚ) (h : 0 ≤ q) : pyTrunc q = ⌊q⌋ := by
  rw [Rat.floor_def, pyTrunc, Int.tdiv_eq_ediv (Rat.num_nonneg.mpr h)]
  exact_mod_cast Int.natCast_nonneg q.den

/-- CPython dict assignment `d[k] = v` on an insertion-ordered association
list: an existing key keeps its position and gets the new value, a fresh key
is appended. -/
def pyInsert {V : Type} (d : List (Int × V)) (k : Int) (v : V) : List (Int × V) :=
  if d.any (fun p => p.1 == k) then
    d.map (fun p => if p.1 == k then (k, v) else p)
  else
    d ++ [(k, v)]

/-- Dict lookup `d[k]` / `k in d`, as an `Option`. -/
def dictFind? {V : Type} (d : List (Int × V)) (k : Int) : Option V :=
  (d.find? (fun p => p.1 == k)).map (fun p => p.2)

/-- Dict lookup with default, `d.get(k, v0)`. -/
def dictGetD {V : Type} (d : List (Int × V)) (k : Int) (v0 : V) : V :=
  (dictFind? d k).getD v0

/-- The key list of a dict, in insertion order (`d.keys()`). -/
def dictKeys {V : Type} (d : List (Int × V)) : List Int :=
  d.map (fun p => p.1)

/-- Python `max(d.keys())` for a non-empty dict (the scripts only call it
after checking the dict is non-empty; the value on `[]` is arbitrary). -/
def maxKey {V : Type} (d : List (Int × V)) : Int :=
  match dictKeys d with
  | [] => 0
  | k :: ks => ks.foldl max k

/-- The value of the last assignment with key `k` in a list of `(key, value)`
assignments, if any: this is what a sequence of dict writes leaves at `k`. -/
def lastVal? {V : Type} (ps : List (Int × V)) (k : Int) : Option V :=
  (ps.reverse.find? (fun p => p.1 == k)).map (fun p => p.2)

theorem dictFind?_cons_of_pos {V : Type} (a : Int × V) (l : List (Int × V))
    (k : Int) (h : a.1 = k) : dictFind? (a :: l) k = some a.2 := by
  rw [dictFind?, List.find?_cons_of_pos _ (by simp [h])]
  rfl

theorem dictFind?_cons_of_neg {V : Type} (a : Int × V) (l : List (Int × V))
    (k : Int) (h : ¬ a.1 = k) : dictFind? (a :: l) k = dictFind? l k := by
  rw [dictFind?, List.find?_cons_of_neg _ (by simp [h])]
  rfl

theorem dictFind?_pyInsert {V : Type} (d : List (Int × V)) (k : Int) (v : V)
    (k' : Int) :
    dictFind? (pyInsert d k v) k' = if k' = k then some v else dictFind? d k' := by
  unfold pyInsert
  by_cases hmem : d.any (fun p => p.1 == k) = true
  · rw [if_pos hmem]
    induction d with
    | nil => simp at hmem
    | cons p rest ih =>
      simp only [List.map_cons]
      by_cases hp : p.1 = k
      · have hq : (if (p.1 == k) = true then (k, v) else p) = (k, v) := by simp [hp]
        rw [hq]
        by_cases hk : k' = k
        · subst hk
          rw [dictFind?_cons_of_pos _ _ _ rfl, if_pos rfl]
        · rw [dictFind?_cons_of_neg _ _ _ (Ne.symm hk), if_neg hk]
          conv_rhs => rw [dictFind?_cons_of_neg _ _ _ (by rw [hp]; exact Ne.symm hk)]
          by_cases hr : rest.any (fun p => p.1 == k) = true
          · rw [ih hr, if_neg hk]
          · have hrid : rest.map (fun p => if (p.1 == k) = true then (k, v) else p) =
                rest.map id := by
              apply List.map_congr_left
              intro a ha
              have : ¬(a.1 == k) = true := fun hc =>
                hr (List.any_eq_true.mpr ⟨a, ha, hc⟩)
              simp [this]
            rw [hrid, List.map_id]
      · have hrest : rest.any (fun p => p.1 == k) = true := by
          rcases List.any_eq_true.mp hmem with ⟨a, ha, hak⟩
          rcases List.mem_cons.mp ha with h | h
          · exfalso; apply hp; subst h; simpa using hak
          · exact List.any_eq_true.mpr ⟨a, h, hak⟩
        have hq : (if (p.1 == k) = true then (k, v) else p) = p := by simp [hp]
        rw [hq]
        by_cases hk' : p.1 = k'
        · rw [dictFind?_cons_of_pos _ _ _ hk']
          conv_rhs => rw [dictFind?_cons_of_pos _ _ _ hk']
          have : ¬(k' = k) := fun hc => hp (hk'.symm ▸ hc)
          rw [if_neg this]
        · rw [dictFind?_cons_of_neg _ _ _ hk']
          conv_rhs => rw [dictFind?_cons_of_neg _ _ _ hk']
          exact ih hrest
  · rw [if_neg hmem]
    unfold dictFind?
    rw [List.find?_append]
    by_cases hk : k' = k
    · subst hk
      have hnone : List.find? (fun p => p.1 == k') d = none := by
        rw [List.find?_eq_none]
        intro a ha hc
        exact hmem (List.any_eq_true.mpr ⟨a, ha, hc⟩)
      rw [hnone]
      rw [List.find?_cons_of_pos _ (by simp)]
      simp
    · have hone : List.find? (fun p => p.1 == k') [(k, v)] = none := by
        rw [List.find?_cons_of_neg _ (by simp [Ne.symm hk])]
        rfl
      rw [hone, Option.or_none]
      simp [hk]

/-- Folding a list of `(key, value)` assignments into a dict with `pyInsert`
realises last-write-wins lookup. -/
theorem dictFind?_foldl_pyInsert {V : Type} (ps : List (Int × V))
    (init : List (Int × V)) (k : Int) :
    dictFind? (ps.foldl (fun d p => pyInsert d p.1 p.2) init) k =
      (lastVal? ps k).or (dictFind? init k) := by
  induction ps generalizing init with
  | nil => simp [lastVal?]
  | cons p rest ih =>
    rw [List.foldl_cons, ih]
    unfold lastVal?
    rw [List.reverse_cons, List.find?_append]
    rw [dictFind?_pyInsert]
    by_cases hfound : (rest.reverse.find? (fun q => q.1 == k)).isSome
    · rcases Option.isSome_iff_exists.mp hfound with ⟨a, ha⟩
      rw [ha]
      simp
    · rw [Option.not_isSome_iff_eq_none.mp hfound]
      by_cases hk : k = p.1
      · subst hk
        rw [List.find?_cons_of_pos _ (by simp)]
        simp
      · have hone : List.find? (fun q => q.1 == k) [p] = none := by
          rw [List.find?_cons_of_neg _ (by simp; exact fun hc => hk hc.symm)]
          rfl
        rw [hone]
        simp [hk]

theorem find?_map_keyfun {V : Type} (l : List Int) (f : Int → V) (k : Int) :
    ((l.map (fun s => (s, f s))).find? (fun p => p.1 == k)).map (fun p => p.2) =
      if k ∈ l then some (f k) else none := by
  induction l with
  | nil => simp
  | cons a rest ih =>
    simp only [List.map_cons]
    by_cases hak : a = k
    · subst hak
      rw [List.find?_cons_of_pos _ (by simp)]
      simp
    · rw [List.find?_cons_of_neg _ (by simp [hak])]
      rw [ih]
      have : (k ∈ a :: rest) ↔ (k ∈ rest) := by
        rw [List.mem_cons]
        exact ⟨fun h => h.elim (fun hc => absurd hc.symm hak) id, Or.inr⟩
      rw [if_congr this rfl rfl]

/-- Looking up `k` after building a dict whose value at each key `s` is
`f s`: the result is `f k` as soon as `k` was written at all. -/
theorem dictFind?_foldl_keyfun {V : Type} (ks : List Int) (f : Int → V)
    (init : List (Int × V)) (k : Int) :
    dictFind? (ks.foldl (fun d s => pyInsert d s (f s)) init) k =
      if k ∈ ks then some (f k) else dictFind? init k := by
  have hmap : ks.foldl (fun d s => pyInsert d s (f s)) init =
      (ks.map (fun s => (s, f s))).foldl (fun d p => pyInsert d p.1 p.2) init := by
    rw [List.foldl_map]
  rw [hmap, dictFind?_foldl_pyInsert]
  have hlast : lastVal? (ks.map (fun s => (s, f s))) k =
      if k ∈ ks then some (f k) else none := by
    unfold lastVal?
    have hrev : (ks.map (fun s => (s, f s))).reverse =
        ks.reverse.map (fun s => (s, f s)) := by
      rw [List.map_reverse]
    rw [hrev, find?_map_keyfun]
    rw [if_congr List.mem_reverse rfl rfl]
  rw [hlast]
  by_cases hk : k ∈ ks
  · simp [hk]
  · simp [hk]

/-- The character list of the literal `"sec.txt"`. -/
def secTxtL : List Char := "sec.txt".data

/-- The character list of the literal `".txt"`. -/
def dotTxtL : List Char := ".txt".data

/-- Python substring test `pat in s`. -/
def containsSubL (pat s : List Char) : Bool :=
  s.tails.any (fun t => pat.isPrefixOf t)

/-- Fuel-indexed worker for `str.replace(pat, '')`: scans left to right and
drops every non-overlapping occurrence of `pat`. The fuel is only there to
make the recursion structural; it never runs out when it starts at the
length of the scanned list. -/
def removeSubAux (pat : List Char) : ℕ → List Char → List Char
  | _, [] => []
  | 0, s => s
  | fuel + 1, c :: rest =>
    if pat.isPrefixOf (c :: rest) ∧ pat ≠ [] then
      removeSubAux pat fuel ((c :: rest).drop pat.length)
    else
      c :: removeSubAux pat fuel rest

/-- Python `s.replace(pat, '')` on character lists. -/
def removeSubL (pat s : List Char) : List Char :=
  removeSubAux pat s.length s

/-- Python `s.split(sep)` for a single-character separator: keeps empty
pieces, so the result is always non-empty. -/
def splitOnCharL (sep : Char) : List Char → List (List Char)
  | [] => [[]]
  | c :: rest =>
    match splitOnCharL sep rest with
    | [] => [[]]
    | h :: t => if c = sep then [] :: h :: t else (c :: h) :: t

/-- The numeric value of a list of decimal digit characters. -/
def digitsVal (cs : List Char) : ℕ :=
  cs.foldl (fun acc c => 10 * acc + (c.toNat - 48)) 0

/-- Python `int(s)` restricted to the shapes that occur in these scripts'
file names: an optional sign followed by one or more ASCII digits parses,
anything else raises `ValueError` (`none`). -/
def parseIntL (cs : List Char) : Option Int :=
  match cs with
  | '-' :: ds =>
    if ds ≠ [] ∧ ds.all Char.isDigit then some (-(digitsVal ds : ℤ)) else none
  | '+' :: ds =>
    if ds ≠ [] ∧ ds.all Char.isDigit then some ((digitsVal ds : ℤ)) else none
  | ds =>
    if ds ≠ [] ∧ ds.all Char.isDigit then some ((digitsVal ds : ℤ)) else none

/-- One data row of a per-second motion file, after CSV splitting: each cell
is `some q` when `float(cell)` parses to `q` and `none` when it raises. -/
abbrev Row : Type := List (Option ℚ)

/-- One file of a motion-per-second directory: its name and its CSV rows
(the first row, when present, is the header the scripts skip). -/
structure SegFile where
  name : List Char
  rows : List Row
deriving DecidableEq

/-- `start_sec, end_sec = map(int, segment_file.replace('sec.txt', '').split('-'))`:
succeeds exactly when stripping `sec.txt` and splitting on `-` yields two
int-parseable pieces; otherwise the uncaught `ValueError` aborts the script. -/
def nameOffsets (name : List Char) : Option (Int × Int) :=
  match (splitOnCharL '-' (removeSubL secTxtL name)).map parseIntL with
  | [some a, some b] => some (a, b)
  | _ => none

/-- File filter of `evaluate.py` / `create_walking_classification_video.py`:
`f.endswith('.txt') and 'sec.txt' in f`. -/
def evalSelect (name : List Char) : Bool :=
  dotTxtL.isSuffixOf name && containsSubL secTxtL name

/-- File filter of `plot_move_amount_per_min.py`: `filename.endswith('sec.txt')`. -/
def plotSelect (name : List Char) : Bool :=
  secTxtL.isSuffixOf name

/-- Parsing one data row: skipped (`none`) when it has fewer than two cells
or when `int(float(row[0]))` / `float(row[1])` raises; otherwise the
`(second, motion)` assignment it contributes, with the second truncated via
Python `int()`. -/
def parsedRow? (row : Row) : Option (Int × ℚ) :=
  if row.length < 2 then none
  else
    match row.get? 0, row.get? 1 with
    | some (some q0), some (some q1) => some (pyTrunc q0, q1)
    | _, _ => none

/-- Folding the data rows of one file into the running dict, mirroring the
row loop shared by all three `read_motion_data` variants. -/
def rowFold (d : List (Int × ℚ)) (rows : List Row) : List (Int × ℚ) :=
  rows.foldl
    (fun d2 row =>
      match parsedRow? row with
      | some p => pyInsert d2 p.1 p.2
      | none => d2) d

/-- The `(second, motion)` assignments a file contributes, in row order:
its data rows (everything after the header) that parse. -/
def fileAssigns (f : SegFile) : List (Int × ℚ) :=
  (f.rows.drop 1).filterMap parsedRow?

theorem rowFold_eq_foldl_assigns (d : List (Int × ℚ)) (rows : List Row) :
    rowFold d rows =
      (rows.filterMap parsedRow?).foldl (fun d2 p => pyInsert d2 p.1 p.2) d := by
  induction rows generalizing d with
  | nil => rfl
  | cons row rest ih =>
    rw [rowFold, List.foldl_cons, List.filterMap_cons]
    cases hrow : parsedRow? row with
    | none => rw [← rowFold, ih]
    | some p => rw [← rowFold, ih, List.foldl_cons]

/-- 3-class labels of `create_walking_classification_video.classify_motion`
(the strings `"WALKING"`, `"HOLD"`, `"STAYING"`). -/
inductive Label : Type
  | WALKING
  | HOLD
  | STAYING
deriving DecidableEq

/-- The BGR colour paired with each label in the source. -/
def labelColor : Label → ℕ × ℕ × ℕ
  | Label.WALKING => (0, 200, 0)
  | Label.HOLD => (0, 200, 200)
  | Label.STAYING => (0, 0, 200)

/-- The per-second threshold rule shared by both 3-class `classify_motion`
bodies: `mv >= th1` → WALKING, `elif mv >= th2` → HOLD, `else` → STAYING. -/
def classifyRule (mv th1 th2 : ℚ) : Label :=
  if mv ≥ th1 then Label.WALKING
  else if mv ≥ th2 then Label.HOLD
  else Label.STAYING

/-- 3-class labels of `plot_move_amount_per_min.classify_motion` (the
strings `'walk'`, `'hold'`, `'stay'`). -/
inductive PlotLabel : Type
  | walk
  | hold
  | stay
deriving DecidableEq

/-- The threshold rule of `plot_move_amount_per_min.classify_motion`. -/
def plotRule (mv th1 th2 : ℚ) : PlotLabel :=
  if mv ≥ th1 then PlotLabel.walk
  else if mv ≥ th2 then PlotLabel.hold
  else PlotLabel.stay

namespace CalMoving

/-- `cal_moving_amount_by_sec.read_pose_data`, one call per non-blank input
line (a blank line contributes an empty field list and is skipped by the
`len(values) < 2` guard, like in the source). Per line: fewer than 2 fields
→ warning and skip; `float(values[0])` raising `ValueError` → warning and
skip; then `values[2]`: a missing index raises `IndexError`, which the inner
`except ValueError` does not catch — the outer generic handler turns it into
`sys.exit(1)` (modelled `.error ()`); a non-numeric third field → warning
and skip; otherwise `(x, z)` is appended. -/
def read_pose_data (lines : List (List (Option ℚ))) :
    Except Unit (List (ℚ × ℚ)) :=
  lines.foldlM
    (fun acc values =>
      if values.length < 2 then Except.ok acc
      else
        match values.get? 0 with
        | some none => Except.ok acc
        | some (some x) =>
          match values.get? 2 with
          | none => Except.error ()
          | some none => Except.ok acc
          | some (some z) => Except.ok (acc ++ [(x, z)])
        | none => Except.ok acc)
    []

/-- `cal_moving_amount_by_sec.aggregate_by_second`:
`total_seconds = math.ceil(len(frame_motions) / fps)`; for each local
second, `start_frame = int(second * fps)`, `end_frame = int((second+1) * fps)`,
and the motions with index in `range(start_frame, min(end_frame, len))` are
summed; the pair `(start_second + second, motion_sum)` is appended. The
callers only ever pass `fps > 0` (`main` exits otherwise), so the `Int.toNat`
clamps are exact. -/
def aggregate_by_second (frame_motions : List ℚ) (fps : ℚ)
    (start_second : ℕ) : List (ℕ × ℚ) :=
  let total := (ratCeil ((frame_motions.length : ℚ) / fps)).toNat
  (List.range total).map
    (fun (second : ℕ) =>
      let startFrame := (pyTrunc ((second : ℚ) * fps)).toNat
      let endFrame := (pyTrunc (((second : ℚ) + 1) * fps)).toNat
      let stop := min endFrame frame_motions.length
      ((start_second + second : ℕ),
        ((List.range' startFrame (stop - startFrame)).map
          (fun i => frame_motions.getD i 0)).sum))

/-- `os.path.basename` for POSIX paths: the part after the last `/`. -/
def basenameL (path : List Char) : List Char :=
  (splitOnCharL '/' path).getLastD []

/-- One attempt of `re.search(r'(\d+)-(\d+)sec\.txt', ...)` anchored at the
start of `cs`: a maximal non-empty digit run, a literal `-`, a second
maximal non-empty digit run, then the literal `sec.txt`; on success the
value of the first group (the start second). Because `-` and `s` are not
digits, the regex engine's backtracking never shortens the greedy `\d+`
runs, so the maximal-run reading is exact. -/
def matchAt (cs : List Char) : Option ℕ :=
  if (cs.takeWhile Char.isDigit).isEmpty then none
  else
    match cs.drop (cs.takeWhile Char.isDigit).length with
    | '-' :: rest2 =>
      if (rest2.takeWhile Char.isDigit).isEmpty then none
      else if secTxtL.isPrefixOf (rest2.drop (rest2.takeWhile Char.isDigit).length) then
        some (digitsVal (cs.takeWhile Char.isDigit))
      else none
    | _ => none

/-- `re.search` scanning: try each start position left to right. -/
def searchFirst : List Char → Option ℕ
  | [] => none
  | c :: rest =>
    match matchAt (c :: rest) with
    | some v => some v
    | none => searchFirst rest

/-- `cal_moving_amount_by_sec.extract_start_second_from_filename`: the first
regex match's start group as an int, or 0 (with a warning) when the basename
contains no match. -/
def extract_start_second_from_filename (path : List Char) : ℕ :=
  (searchFirst (basenameL path)).getD 0

/-- Spec-side, declarative form of "the pattern `(\d+)-(\d+)sec\.txt` occurs
somewhere in `t` starting at its head": some split of `t` into a non-empty
digit block, `-`, a non-empty digit block and a `sec.txt`-prefixed tail
(checked by bounded exhaustive search over the two split points). -/
def patAt (t : List Char) : Bool :=
  (List.range (t.length + 1)).any
    (fun j =>
      decide (0 < j) && (t.take j).all Char.isDigit &&
        (match t.drop j with
         | '-' :: r =>
           (List.range (r.length + 1)).any
             (fun k =>
               decide (0 < k) && (r.take k).all Char.isDigit &&
                 secTxtL.isPrefixOf (r.drop k))
         | _ => false))

/-- Spec-side occurrence of the filename pattern anywhere in `cs`. -/
def occursPat (cs : List Char) : Bool :=
  cs.tails.any patAt

end CalMoving

namespace Evaluate

/-- `evaluate.read_motion_data` (line-identical in
`create_walking_classification_video.py`): filter the directory listing by
`f.endswith('.txt') and 'sec.txt' in f`, iterate in `sorted(...)` order, and
for each file first run the filename-offset unpacking (whose `ValueError`
on a non-matching name is uncaught and aborts the script), then skip the
header row (`next(reader)` on an empty file raises an uncaught
`StopIteration`) and fold the data rows into the shared dict. -/
def read_motion_data (listing : List SegFile) :
    Except Unit (List (Int × ℚ)) :=
  (List.insertionSort (fun f g : SegFile => f.name ≤ g.name)
      (listing.filter (fun f => evalSelect f.name))).foldlM
    (fun d f =>
      match nameOffsets f.name with
      | none => Except.error ()
      | some _ =>
        match f.rows with
        | [] => Except.error ()
        | _ :: dataRows => Except.ok (rowFold d dataRows))
    []

/-- `evaluate.classify_motion`: 2-class rule over the motion dict's items,
`1` when `motion >= threshold`, else `0`. -/
def classify_motion (sec_to_motion : List (Int × ℚ)) (threshold : ℚ) :
    List (Int × Int) :=
  sec_to_motion.foldl
    (fun c p => pyInsert c p.1 (if p.2 ≥ threshold then 1 else 0)) []

/-- `evaluate.align_data`: for each second below the annotation length, the
ground-truth value and the prediction (`0` when the second is missing from
the classification dict). -/
def align_data (annot : List Int) (sec_to_classification : List (Int × Int)) :
    List Int × List Int :=
  ((List.range annot.length).map (fun (sec : ℕ) => annot.getD sec 0),
   (List.range annot.length).map
     (fun (sec : ℕ) => dictGetD sec_to_classification (sec : Int) 0))

/-- `evaluate.calculate_confusion_matrix`: four counters accumulated over
`zip(y_true, y_pred)` by the if/elif chain on the pair of values; a pair
matching none of the four `{0,1} × {0,1}` combinations leaves all four
counters unchanged. Result `(tn, fp, fn, tp)`. -/
def calculate_confusion_matrix (y_true y_pred : List Int) : ℕ × ℕ × ℕ × ℕ :=
  (y_true.zip y_pred).foldl
    (fun c p =>
      if p.1 = 0 ∧ p.2 = 0 then (c.1 + 1, c.2.1, c.2.2.1, c.2.2.2)
      else if p.1 = 0 ∧ p.2 = 1 then (c.1, c.2.1 + 1, c.2.2.1, c.2.2.2)
      else if p.1 = 1 ∧ p.2 = 0 then (c.1, c.2.1, c.2.2.1 + 1, c.2.2.2)
      else if p.1 = 1 ∧ p.2 = 1 then (c.1, c.2.1, c.2.2.1, c.2.2.2 + 1)
      else c)
    (0, 0, 0, 0)

/-- The sum of the four confusion-matrix cells. -/
def cmSum (c : ℕ × ℕ × ℕ × ℕ) : ℕ :=
  c.1 + c.2.1 + c.2.2.1 + c.2.2.2

end Evaluate

namespace CreateVideo

/-- `create_walking_classification_video.classify_motion`: for every second
`s` in `range(0, max(sec_to_motion.keys()) + 1)`, look the motion up with
default `0.0` and store the `(label, colour)` pair of the threshold rule.
The caller guarantees a non-empty dict (it exits on empty motion data);
`(maxKey d + 1).toNat` reproduces `range(0, max_sec + 1)` including the
empty range for a negative maximum. -/
def classify_motion (sec_to_motion : List (Int × ℚ))
    (walking_threshold1 walking_threshold2 : ℚ) :
    List (Int × (Label × (ℕ × ℕ × ℕ))) :=
  (List.range (maxKey sec_to_motion + 1).toNat).foldl
    (fun c (s : ℕ) =>
      let mv := dictGetD sec_to_motion (s : Int) 0
      pyInsert c (s : Int)
        (classifyRule mv walking_threshold1 walking_threshold2,
         labelColor (classifyRule mv walking_threshold1 walking_threshold2)))
    []

end CreateVideo

namespace PlotPerMin

/-- `plot_move_amount_per_min.read_motion_data`: iterate `os.listdir` in the
order the directory listing provides (NO sorting), keep files with
`filename.endswith('sec.txt')`, and fold each file's data rows into the
shared dict. The whole per-file read sits in a `try/except Exception` that
downgrades any failure (including the `StopIteration` of an empty file) to
a warning, so the result is a plain dict, never an abort; the file name is
never parsed. -/
def read_motion_data (listing : List SegFile) : List (Int × ℚ) :=
  (listing.filter (fun f => plotSelect f.name)).foldl
    (fun d f =>
      match f.rows with
      | [] => d
      | _ :: dataRows => rowFold d dataRows)
    []

/-- `plot_move_amount_per_min.classify_motion`: 3-class rule over the motion
dict's items only (no totalisation over `[0, max]`). -/
def classify_motion (sec_to_motion : List (Int × ℚ))
    (walking_threshold1 walking_threshold2 : ℚ) : List (Int × PlotLabel) :=
  sec_to_motion.foldl
    (fun c p => pyInsert c p.1 (plotRule p.2 walking_threshold1 walking_threshold2))
    []

end PlotPerMin

theorem classifyRule_walking (mv th1 th2 : ℚ) (h : th1 ≤ mv) :
    classifyRule mv th1 th2 = Label.WALKING := by
  rw [classifyRule, if_pos h]

theorem classifyRule_holding (mv th1 th2 : ℚ) (h1 : mv < th1) (h2 : th2 ≤ mv) :
    classifyRule mv th1 th2 = Label.HOLD := by
  rw [classifyRule, if_neg (not_le.mpr h1), if_pos h2]

theorem classifyRule_staying (mv th1 th2 : ℚ) (h1 : mv < th1) (h2 : mv < th2) :
    classifyRule mv th1 th2 = Label.STAYING := by
  rw [classifyRule, if_neg (not_le.mpr h1), if_neg (not_le.mpr h2)]

theorem plotRule_walking (mv th1 th2 : ℚ) (h : th1 ≤ mv) :
    plotRule mv th1 th2 = PlotLabel.walk := by
  rw [plotRule, if_pos h]

theorem plotRule_holding (mv th1 th2 : ℚ) (h1 : mv < th1) (h2 : th2 ≤ mv) :
    plotRule mv th1 th2 = PlotLabel.hold := by
  rw [plotRule, if_neg (not_le.mpr h1), if_pos h2]

theorem plotRule_staying (mv th1 th2 : ℚ) (h1 : mv < th1) (h2 : mv < th2) :
    plotRule mv th1 th2 = PlotLabel.stay := by
  rw [plotRule, if_neg (not_le.mpr h1), if_neg (not_le.mpr h2)]

theorem lastVal?_single {V : Type} (p : Int × V) (k : Int) :
    lastVal? [p] k = if p.1 = k then some p.2 else none := by
  unfold lastVal?
  by_cases hp : p.1 = k
  · rw [List.reverse_singleton, List.find?_cons_of_pos _ (by simp [hp]), if_pos hp]
    rfl
  · rw [List.reverse_singleton, List.find?_cons_of_neg _ (by simp [hp]), if_neg hp]
    rfl

theorem lastVal?_cons {V : Type} (p : Int × V) (ps : List (Int × V)) (k : Int) :
    lastVal? (p :: ps) k = (lastVal? ps k).or (lastVal? [p] k) := by
  unfold lastVal?
  rw [List.reverse_cons, List.find?_append, List.reverse_singleton]
  cases hq : ps.reverse.find? (fun q => q.1 == k) with
  | none => simp
  | some a => simp

theorem lastVal?_map_keyval {V W : Type} (d : List (Int × V)) (g : V → W)
    (k : Int) (mv : V) (hnd : (dictKeys d).Nodup) (h : dictFind? d k = some mv) :
    lastVal? (d.map (fun p => (p.1, g p.2))) k = some (g mv) := by
  induction d with
  | nil => simp [dictFind?] at h
  | cons p rest ih =>
    have hnd2 : (p.1 :: dictKeys rest).Nodup := by simpa [dictKeys] using hnd
    rw [List.map_cons, lastVal?_cons]
    by_cases hp : p.1 = k
    · have hmv : p.2 = mv := by
        rw [dictFind?_cons_of_pos _ _ _ hp] at h
        exact Option.some.inj h
      have hknotin : k ∉ dictKeys rest := by
        rw [← hp]
        exact (List.nodup_cons.mp hnd2).1
      have hnone : lastVal? (rest.map (fun p => (p.1, g p.2))) k = none := by
        unfold lastVal?
        rw [List.find?_eq_none.mpr]
        · rfl
        · intro a ha hc
          rcases List.mem_map.mp (List.mem_reverse.mp ha) with ⟨b, hb, hba⟩
          apply hknotin
          have hak : a.1 = k := by simpa using hc
          have : b.1 = k := by rw [← hba] at hak; exact hak
          exact this ▸ List.mem_map.mpr ⟨b, hb, rfl⟩
      rw [hnone, Option.none_or, lastVal?_single]
      simp [hp, hmv]
    · have h' : dictFind? rest k = some mv := by
        rwa [dictFind?_cons_of_neg _ _ _ hp] at h
      rw [ih (List.nodup_cons.mp hnd2).2 h', lastVal?_single]
      simp [hp]

theorem mem_map_natCast_range (s n : ℕ) :
    ((s : Int) ∈ (List.range n).map (fun i : ℕ => (i : Int))) ↔ s < n := by
  constructor
  · intro h
    rcases List.mem_map.mp h with ⟨a, ha, hcast⟩
    have : a = s := by exact_mod_cast hcast
    exact this ▸ List.mem_range.mp ha
  · intro h
    exact List.mem_map.mpr ⟨s, List.mem_range.mpr h, rfl⟩

/-- Lookup into the video classifier's label table: every second `s` with
`0 ≤ s ≤ max(keys)` is present, labelled by the threshold rule applied to
the motion value looked up with default `0.0`. -/
theorem video_classify_find (d : List (Int × ℚ)) (th1 th2 : ℚ) (s : ℕ)
    (hs : (s : Int) ≤ maxKey d) :
    dictFind? (CreateVideo.classify_motion d th1 th2) (s : Int) =
      some (classifyRule (dictGetD d (s : Int) 0) th1 th2,
            labelColor (classifyRule (dictGetD d (s : Int) 0) th1 th2)) := by
  have hfold :
      (List.range (maxKey d + 1).toNat).foldl
        (fun c (s2 : ℕ) =>
          let mv := dictGetD d (s2 : Int) 0
          pyInsert c (s2 : Int)
            (classifyRule mv th1 th2, labelColor (classifyRule mv th1 th2))) [] =
      ((List.range (maxKey d + 1).toNat).map (fun i : ℕ => (i : Int))).foldl
        (fun c k => pyInsert c k
          (classifyRule (dictGetD d k 0) th1 th2,
           labelColor (classifyRule (dictGetD d k 0) th1 th2))) [] := by
    rw [List.foldl_map]
  rw [CreateVideo.classify_motion, hfold, dictFind?_foldl_keyfun]
  rw [if_pos ((mem_map_natCast_range s _).mpr
    (Int.lt_toNat.mpr (Int.lt_add_one_iff.mpr hs)))]

/-- Lookup into the plot classifier's table: a second present in the motion
dict (with pairwise-distinct keys, as any real dict has) is labelled by the
threshold rule applied to its motion value. -/
theorem plot_classify_find (d : List (Int × ℚ)) (th1 th2 : ℚ) (k : Int)
    (mv : ℚ) (hnd : (dictKeys d).Nodup) (h : dictFind? d k = some mv) :
    dictFind? (PlotPerMin.classify_motion d th1 th2) k =
      some (plotRule mv th1 th2) := by
  unfold PlotPerMin.classify_motion
  have hfold : d.foldl (fun c p => pyInsert c p.1 (plotRule p.2 th1 th2)) [] =
      (d.map (fun p => (p.1, plotRule p.2 th1 th2))).foldl
        (fun c p => pyInsert c p.1 p.2) [] := by
    rw [List.foldl_map]
  rw [hfold, dictFind?_foldl_pyInsert,
    lastVal?_map_keyval d (fun v => plotRule v th1 th2) k mv hnd h]
  rfl

/-- Claim C1: for every motion table and thresholds `TH1 > TH2 ≥ 0`, the
3-class rule is boundary-inclusive toward the higher class: a second whose
motion value `mv` has `mv = TH1` (or `mv > TH1`) is labelled WALKING,
`mv = TH2` or `TH2 < mv < TH1` is labelled HOLD, and `mv < TH2` is labelled
STAYING — in `create_walking_classification_video.classify_motion` (for any
second up to the maximal key) and in `plot_move_amount_per_min.classify_motion`
(for any second present in the table). -/
theorem C1_classification_boundary_inclusive
    (d : List (Int × ℚ)) (th1 th2 : ℚ) (h0 : 0 ≤ th2) (h12 : th2 < th1) :
    (∀ s : ℕ, (s : Int) ≤ maxKey d →
      ((dictGetD d (s : Int) 0 = th1 ∨ th1 < dictGetD d (s : Int) 0) →
        dictFind? (CreateVideo.classify_motion d th1 th2) (s : Int) =
          some (Label.WALKING, labelColor Label.WALKING)) ∧
      ((dictGetD d (s : Int) 0 = th2 ∨
          (th2 < dictGetD d (s : Int) 0 ∧ dictGetD d (s : Int) 0 < th1)) →
        dictFind? (CreateVideo.classify_motion d th1 th2) (s : Int) =
          some (Label.HOLD, labelColor Label.HOLD)) ∧
      (dictGetD d (s : Int) 0 < th2 →
        dictFind? (CreateVideo.classify_motion d th1 th2) (s : Int) =
          some (Label.STAYING, labelColor Label.STAYING))) ∧
    (∀ (k : Int) (mv : ℚ), (dictKeys d).Nodup → dictFind? d k = some mv →
      ((mv = th1 ∨ th1 < mv) →
        dictFind? (PlotPerMin.classify_motion d th1 th2) k = some PlotLabel.walk) ∧
      ((mv = th2 ∨ (th2 < mv ∧ mv < th1)) →
        dictFind? (PlotPerMin.classify_motion d th1 th2) k = some PlotLabel.hold) ∧
      (mv < th2 →
        dictFind? (PlotPerMin.classify_motion d th1 th2) k = some PlotLabel.stay)) := by
  constructor
  · intro s hs
    refine ⟨fun hw => ?_, fun hh => ?_, fun hst => ?_⟩
    · rw [video_classify_find d th1 th2 s hs]
      rcases hw with hw | hw
      · rw [classifyRule_walking _ _ _ (le_of_eq hw.symm)]
      · rw [classifyRule_walking _ _ _ (le_of_lt hw)]
    · rw [video_classify_find d th1 th2 s hs]
      rcases hh with hh | ⟨hl, hr⟩
      · rw [classifyRule_holding _ _ _ (hh ▸ h12) (le_of_eq hh.symm)]
      · rw [classifyRule_holding _ _ _ hr (le_of_lt hl)]
    · rw [video_classify_find d th1 th2 s hs,
        classifyRule_staying _ _ _ (lt_trans hst h12) hst]
  · intro k mv hnd hfind
    refine ⟨fun hw => ?_, fun hh => ?_, fun hst => ?_⟩
    · rw [plot_classify_find d th1 th2 k mv hnd hfind]
      rcases hw with hw | hw
      · rw [plotRule_walking _ _ _ (le_of_eq hw.symm)]
      · rw [plotRule_walking _ _ _ (le_of_lt hw)]
    · rw [plot_classify_find d th1 th2 k mv hnd hfind]
      rcases hh with hh | ⟨hl, hr⟩
      · rw [plotRule_holding _ _ _ (hh ▸ h12) (le_of_eq hh.symm)]
      · rw [plotRule_holding _ _ _ hr (le_of_lt hl)]
    · rw [plot_classify_find d th1 th2 k mv hnd hfind,
        plotRule_staying _ _ _ (lt_trans hst h12) hst]

/-- Witness for C1 at the motion table `{0: 2.0}` with `TH1 = 2`, `TH2 = 1`:
the boundary second with `mv = TH1` is labelled WALKING. -/
theorem C1_witness :
    (0 : ℚ) ≤ 1 ∧ (1 : ℚ) < 2 ∧
      dictFind? (CreateVideo.classify_motion [((0 : Int), (2 : ℚ))] 2 1) 0 =
        some (Label.WALKING, labelColor Label.WALKING) :=
  ⟨by norm_num, by norm_num,
    ((C1_classification_boundary_inclusive [((0 : Int), (2 : ℚ))] 2 1
        (by norm_num) (by norm_num)).1 0 (by decide)).1 (Or.inl (by decide))⟩

/-- Claim C3, amended: for a non-empty motion table and thresholds with
`TH1 > TH2`, the video classifier's label table is total over `[0, max(keys)]`
— every such second is present, labelled by the threshold rule on the motion
value looked up with default `0.0` — and, provided `TH2 > 0`, a second absent
from the motion table receives STAYING. (Without `TH2 > 0` the absent-second
default `0.0` satisfies `mv ≥ TH2` and is labelled HOLD, see the
counterexample.) -/
theorem C3_total_labelling_amended (d : List (Int × ℚ)) (th1 th2 : ℚ)
    (hne : d ≠ []) (h2 : 0 < th2) (h12 : th2 < th1) (s : ℕ)
    (hs : (s : Int) ≤ maxKey d) :
    dictFind? (CreateVideo.classify_motion d th1 th2) (s : Int) =
      some (classifyRule (dictGetD d (s : Int) 0) th1 th2,
            labelColor (classifyRule (dictGetD d (s : Int) 0) th1 th2)) ∧
    (dictFind? d (s : Int) = none →
      dictFind? (CreateVideo.classify_motion d th1 th2) (s : Int) =
        some (Label.STAYING, labelColor Label.STAYING)) := by
  have hne2 : d ≠ [] := hne
  refine ⟨video_classify_find d th1 th2 s hs, fun habs => ?_⟩
  rw [video_classify_find d th1 th2 s hs]
  have hzero : dictGetD d (s : Int) 0 = 0 := by
    rw [dictGetD, habs]
    rfl
  rw [hzero, classifyRule_staying _ _ _ (lt_trans h2 h12) h2]

/-- Counterexample to claim C3 as stated: with the non-empty motion table
`{1: 5.0}` and thresholds `TH1 = 2 > TH2 = 0 ≥ 0`, the absent second `0` is
treated as motion `0.0` but is labelled HOLD (since `0.0 ≥ TH2`), not the
lowest-activity label STAYING. -/
theorem C3_counterexample :
    (0 : ℚ) ≤ 0 ∧ (0 : ℚ) < 2 ∧ ([((1 : Int), (5 : ℚ))] ≠ []) ∧
    dictFind? [((1 : Int), (5 : ℚ))] 0 = none ∧
    dictFind? (CreateVideo.classify_motion [((1 : Int), (5 : ℚ))] 2 0) 0 =
      some (Label.HOLD, labelColor Label.HOLD) ∧
    dictFind? (CreateVideo.classify_motion [((1 : Int), (5 : ℚ))] 2 0) 0 ≠
      some (Label.STAYING, labelColor Label.STAYING) := by
  refine ⟨le_refl 0, by norm_num, by decide, by decide, by decide, by decide⟩

/-- Witness for the amended C3 at `{1: 5.0}`, `TH1 = 2`, `TH2 = 1`: second
`0` is absent and labelled STAYING. -/
theorem C3_witness :
    (0 : ℚ) < 1 ∧ (1 : ℚ) < 2 ∧ ([((1 : Int), (5 : ℚ))] ≠ []) ∧
    dictFind? (CreateVideo.classify_motion [((1 : Int), (5 : ℚ))] 2 1) 0 =
      some (Label.STAYING, labelColor Label.STAYING) :=
  ⟨by norm_num, by norm_num, by decide,
    (C3_total_labelling_amended [((1 : Int), (5 : ℚ))] 2 1 (by decide)
        (by norm_num) (by norm_num) 0 (by decide)).2 (by decide)⟩

/-- Claim C4 at its failing input: a pose record with exactly two
whitespace-separated numeric fields (such as the line `"1.0 2.0"`). The
`len(values) < 2` guard admits it, `float(values[0])` succeeds, and
`values[2]` then raises `IndexError` — which the inner `except ValueError`
does not catch, so the outer generic handler aborts the read with
`sys.exit(1)` instead of skipping the record as the spec requires. -/
theorem C4_two_field_record_aborts :
    CalMoving.read_pose_data [[some (1 : ℚ), some (2 : ℚ)]] =
      Except.error () := by
  rfl


theorem matchAt_patAt (t : List Char) (v : ℕ)
    (h : CalMoving.matchAt t = some v) : CalMoving.patAt t = true := by
  unfold CalMoving.matchAt at h
  split at h
  · exact absurd h (by simp)
  · rename_i h1
    split at h
    · rename_i rest2 heq
      split at h
      · exact absurd h (by simp)
      · rename_i h2
        split at h
        · rename_i h3
          rw [CalMoving.patAt, List.any_eq_true]
          refine ⟨(t.takeWhile Char.isDigit).length, ?_, ?_⟩
          · exact List.mem_range.mpr
              (Nat.lt_succ_of_le (List.takeWhile_prefix _).length_le)
          · have htake : t.take (t.takeWhile Char.isDigit).length =
                t.takeWhile Char.isDigit :=
              (List.prefix_iff_eq_take.mp (List.takeWhile_prefix _)).symm
            have hall : (t.takeWhile Char.isDigit).all Char.isDigit = true :=
              List.all_eq_true.mpr (fun x hx => List.mem_takeWhile_imp hx)
            have hpos : 0 < (t.takeWhile Char.isDigit).length :=
              List.length_pos.mpr (by simpa [List.isEmpty_iff] using h1)
            rw [Bool.and_eq_true, Bool.and_eq_true, htake, heq]
            refine ⟨⟨by simpa using hpos, hall⟩, ?_⟩
            show ((List.range (rest2.length + 1)).any
              (fun k => decide (0 < k) && (rest2.take k).all Char.isDigit &&
                secTxtL.isPrefixOf (rest2.drop k))) = true
            rw [List.any_eq_true]
            refine ⟨(rest2.takeWhile Char.isDigit).length, ?_, ?_⟩
            · exact List.mem_range.mpr
                (Nat.lt_succ_of_le (List.takeWhile_prefix _).length_le)
            · have htake2 : rest2.take (rest2.takeWhile Char.isDigit).length =
                  rest2.takeWhile Char.isDigit :=
                (List.prefix_iff_eq_take.mp (List.takeWhile_prefix _)).symm
              have hall2 : (rest2.takeWhile Char.isDigit).all Char.isDigit = true :=
                List.all_eq_true.mpr (fun x hx => List.mem_takeWhile_imp hx)
              have hpos2 : 0 < (rest2.takeWhile Char.isDigit).length :=
                List.length_pos.mpr (by simpa [List.isEmpty_iff] using h2)
              rw [Bool.and_eq_true, Bool.and_eq_true, htake2]
              exact ⟨⟨by simpa using hpos2, hall2⟩, h3⟩
        · exact absurd h (by simp)
    · exact absurd h (by simp)

theorem searchFirst_occursPat (cs : List Char) (v : ℕ)
    (h : CalMoving.searchFirst cs = some v) : CalMoving.occursPat cs = true := by
  induction cs with
  | nil => exact absurd h (by simp [CalMoving.searchFirst])
  | cons c rest ih =>
    rw [CalMoving.searchFirst] at h
    rw [CalMoving.occursPat, List.tails_cons, List.any_cons]
    cases hm : CalMoving.matchAt (c :: rest) with
    | some w =>
      rw [Bool.or_eq_true]
      exact Or.inl (matchAt_patAt _ _ hm)
    | none =>
      rw [hm] at h
      rw [Bool.or_eq_true]
      exact Or.inr (ih h)

/-- Claim C10: extracting the start-second offset from an output filename
never fails: whenever the basename contains no occurrence of the
`<digits>-<digits>sec.txt` pattern (bounded-search predicate `occursPat`),
`extract_start_second_from_filename` returns 0 (after a warning in the
source) instead of raising, so the produced table's absolute seconds
silently start at 0. -/
theorem C10_extract_defaults_to_zero (path : List Char)
    (h : CalMoving.occursPat (CalMoving.basenameL path) = false) :
    CalMoving.extract_start_second_from_filename path = 0 := by
  rw [CalMoving.extract_start_second_from_filename]
  cases hs : CalMoving.searchFirst (CalMoving.basenameL path) with
  | none => rfl
  | some v =>
    exact absurd (searchFirst_occursPat _ _ hs) (by rw [h]; simp)

/-- Witness for C10 at the path `"outdir/motion.txt"`: the basename matches
no `<digits>-<digits>sec.txt` pattern and the extracted offset is 0. -/
theorem C10_witness :
    CalMoving.occursPat (CalMoving.basenameL ("outdir/motion.txt".data)) = false ∧
    CalMoving.extract_start_second_from_filename ("outdir/motion.txt".data) = 0 :=
  ⟨by decide, C10_extract_defaults_to_zero _ (by decide)⟩

/-- Spec-side description of one aggregation window: the sum of the motions
whose index lies in `[⌊s·fps⌋, ⌊(s+1)·fps⌋)` clipped to the valid indices,
`0.0` when that window is empty. -/
def specWindowSum (motions : List ℚ) (fps : ℚ) (s : ℕ) : ℚ :=
  (((List.range motions.length).filter
      (fun i => decide ((⌊(s : ℚ) * fps⌋).toNat ≤ i) &&
                decide (i < (⌊((s : ℚ) + 1) * fps⌋).toNat))).map
    (fun i => motions.getD i 0)).sum

theorem filter_range_interval (len a b : ℕ) :
    (List.range len).filter (fun i => decide (a ≤ i) && decide (i < b)) =
      List.range' a (min b len - a) := by
  induction len with
  | zero => simp
  | succ n ih =>
    rw [List.range_succ, List.filter_append, ih]
    by_cases hb : n < b
    · have hminn : min b n = n := Nat.min_eq_right (le_of_lt hb)
      have hminn1 : min b (n + 1) = n + 1 := Nat.min_eq_right hb
      by_cases ha : a ≤ n
      · have hfil : List.filter
            (fun i => decide (a ≤ i) && decide (i < b)) [n] = [n] := by
          simp [List.filter, ha, hb]
        rw [hfil, hminn, hminn1]
        have hsub : n + 1 - a = (n - a) + 1 := by omega
        rw [hsub, List.range'_concat]
        have : a + 1 * (n - a) = n := by omega
        rw [this]
      · have hfil : List.filter
            (fun i => decide (a ≤ i) && decide (i < b)) [n] = [] := by
          simp [List.filter, ha]
        rw [hfil, hminn, hminn1]
        have h1 : n - a = 0 := by omega
        have h2 : n + 1 - a = 0 := by omega
        rw [h1, h2, List.append_nil]
    · have hminn : min b n = b := Nat.min_eq_left (by omega)
      have hminn1 : min b (n + 1) = b := Nat.min_eq_left (by omega)
      have hfil : List.filter
          (fun i => decide (a ≤ i) && decide (i < b)) [n] = [] := by
        simp [List.filter, hb]
      rw [hfil, hminn, hminn1, List.append_nil]

/-- The aggregator, rewritten entirely in the spec's vocabulary: one entry
per local second in `⌈len/fps⌉`, keyed `start_second + s`, valued by the
clipped floor-bounded window sum. -/
theorem aggregate_eq_map_spec (motions : List ℚ) (fps : ℚ)
    (start_second : ℕ) (hf : 0 < fps) :
    CalMoving.aggregate_by_second motions fps start_second =
      (List.range (⌈(motions.length : ℚ) / fps⌉).toNat).map
        (fun s => (start_second + s, specWindowSum motions fps s)) := by
  have htot : (ratCeil ((motions.length : ℚ) / fps)).toNat =
      (⌈(motions.length : ℚ) / fps⌉).toNat := by
    rw [ratCeil_eq_ceil]
  rw [CalMoving.aggregate_by_second, htot]
  apply List.map_congr_left
  intro s hs
  dsimp only
  have ha : (pyTrunc ((s : ℚ) * fps)).toNat = (⌊(s : ℚ) * fps⌋).toNat := by
    rw [pyTrunc_eq_floor _ (mul_nonneg (Nat.cast_nonneg s) (le_of_lt hf))]
  have hb : (pyTrunc (((s : ℚ) + 1) * fps)).toNat =
      (⌊((s : ℚ) + 1) * fps⌋).toNat := by
    rw [pyTrunc_eq_floor _ (mul_nonneg (by positivity) (le_of_lt hf))]
  have hwin : specWindowSum motions fps s =
      ((List.range' (pyTrunc ((s : ℚ) * fps)).toNat
          (min (pyTrunc (((s : ℚ) + 1) * fps)).toNat motions.length -
            (pyTrunc ((s : ℚ) * fps)).toNat)).map
        (fun i => motions.getD i 0)).sum := by
    rw [specWindowSum, ha, hb, filter_range_interval]
  rw [hwin]

/-- Claim C2: for every frame-motion sequence, `fps > 0` and start second,
the aggregation produces exactly `⌈len/fps⌉` entries, and the entry at local
second `s` carries key `start_second + s` and the sum of the motions with
index in `[⌊s·fps⌋, ⌊(s+1)·fps⌋)` clipped to valid indices (`0.0` when that
window is empty), so a short final partial second still appears. -/
theorem C2_aggregation_windows (motions : List ℚ) (fps : ℚ)
    (start_second : ℕ) (hf : 0 < fps) :
    (CalMoving.aggregate_by_second motions fps start_second).length =
      (⌈(motions.length : ℚ) / fps⌉).toNat ∧
    ∀ s : ℕ, s < (⌈(motions.length : ℚ) / fps⌉).toNat →
      (CalMoving.aggregate_by_second motions fps start_second)[s]? =
        some (start_second + s, specWindowSum motions fps s) := by
  rw [aggregate_eq_map_spec motions fps start_second hf]
  constructor
  · rw [List.length_map, List.length_range]
  · intro s hs
    rw [List.getElem?_map, List.getElem?_range hs, Option.map_some']

/-- Witness for C2 at motions `[1.0, 2.0]`, `fps = 1`, `start_second = 0`,
local second `s = 1`. -/
theorem C2_witness :
    (0 : ℚ) < 1 ∧
    (CalMoving.aggregate_by_second [(1 : ℚ), 2] 1 0)[1]? =
      some (0 + 1, specWindowSum [(1 : ℚ), 2] 1 1) :=
  ⟨by norm_num,
    (C2_aggregation_windows [(1 : ℚ), 2] 1 0 (by norm_num)).2 1 (by norm_num)⟩


theorem chunks_flatten (g : ℕ → ℕ) (hmono : ∀ s, g s ≤ g (s + 1)) (n : ℕ) :
    ((List.range n).map (fun s => List.range' (g s) (g (s + 1) - g s))).flatten =
      List.range' (g 0) (g n - g 0) := by
  have hmono2 : ∀ a b, a ≤ b → g a ≤ g b := by
    intro a b hab
    induction hab with
    | refl => exact le_refl _
    | step _ ih => exact le_trans ih (hmono _)
  induction n with
  | zero => simp
  | succ m ih =>
    rw [List.range_succ, List.map_append, List.flatten_append, ih]
    have hflat : (List.map (fun s => List.range' (g s) (g (s + 1) - g s))
        [m]).flatten = List.range' (g m) (g (m + 1) - g m) := by
      simp
    rw [hflat]
    have hstart : g 0 + 1 * (g m - g 0) = g m := by
      have := hmono2 0 m (Nat.zero_le m)
      omega
    have happ := List.range'_append (g 0) (g m - g 0) (g (m + 1) - g m) 1
    rw [hstart] at happ
    rw [happ]
    have hcount : g (m + 1) - g m + (g m - g 0) = g (m + 1) - g 0 := by
      have h1 := hmono2 0 m (Nat.zero_le m)
      have h2 := hmono m
      omega
    rw [hcount]

theorem map_getD_range (l : List ℚ) :
    (List.range l.length).map (fun i => l.getD i 0) = l := by
  apply List.ext_getElem
  · simp
  · intro i h1 h2
    simp only [List.getElem_map, List.getElem_range]
    exact List.getD_eq_getElem l 0 h2

/-- Claim C7: aggregation conserves total motion — the values of the
per-second table produced by `aggregate_by_second` sum to the sum of the
frame-motion sequence. For `fps > 0` the clipped windows
`[⌊s·fps⌋, ⌊(s+1)·fps⌋)` always partition the frame indices `[0, len)`
(consecutive windows share their boundary and `⌊total·fps⌋ ≥ len`), so the
claim's partition premise is automatically satisfied and the identity is
proved outright. -/
theorem C7_aggregation_conserves_total (motions : List ℚ) (fps : ℚ)
    (start_second : ℕ) (hf : 0 < fps) :
    ((CalMoving.aggregate_by_second motions fps start_second).map
        (fun p => p.2)).sum = motions.sum := by
  rw [aggregate_eq_map_spec motions fps start_second hf]

  have hfloor_mono : ∀ s : ℕ, (⌊(s : ℚ) * fps⌋).toNat ≤
      (⌊((s + 1 : ℕ) : ℚ) * fps⌋).toNat := by
    intro s
    apply Int.toNat_le_toNat
    apply Int.floor_le_floor
    apply mul_le_mul_of_nonneg_right _ (le_of_lt hf)
    push_cast
    linarith
  rw [List.map_map]
  have hcomp : ((fun p : ℕ × ℚ => p.2) ∘
      (fun s => (start_second + s, specWindowSum motions fps s))) =
      fun s => specWindowSum motions fps s := rfl
  rw [hcomp]
  set len := motions.length with hlen
  set total := (⌈(len : ℚ) / fps⌉).toNat with htotal
  set g : ℕ → ℕ := fun s => min (⌊(s : ℚ) * fps⌋).toNat len with hg
  have hgmono : ∀ s, g s ≤ g (s + 1) := by
    intro s
    rw [hg]
    have := hfloor_mono s
    simp only []
    omega
  have hg0 : g 0 = 0 := by
    rw [hg]
    simp
  have hgtotal : g total = len := by
    rw [hg]
    simp only []
    have hceil : (len : ℚ) / fps ≤ ((total : ℕ) : ℚ) := by
      rw [htotal]
      refine le_trans (Int.le_ceil _) ?_
      exact_mod_cast Int.self_le_toNat _
    have hmul : (len : ℚ) ≤ (total : ℚ) * fps := by
      rw [div_le_iff₀ hf] at hceil
      exact hceil
    have hfloor : (len : ℤ) ≤ ⌊(total : ℚ) * fps⌋ := by
      apply Int.le_floor.mpr
      push_cast
      exact hmul
    have hlast : len ≤ (⌊(total : ℚ) * fps⌋).toNat := by
      have h0 : (0 : ℤ) ≤ ⌊(total : ℚ) * fps⌋ :=
        le_trans (Int.natCast_nonneg len) hfloor
      omega
    omega
  have hspec : ∀ s : ℕ, specWindowSum motions fps s =
      ((List.range' (g s) (g (s + 1) - g s)).map
        (fun i => motions.getD i 0)).sum := by
    intro s
    rw [specWindowSum, filter_range_interval]
    have hcast : ((s : ℚ) + 1) = (((s + 1 : ℕ)) : ℚ) := by push_cast; ring
    rw [hcast]
    have hint : List.range' (⌊(s : ℚ) * fps⌋).toNat
        (min (⌊((s + 1 : ℕ) : ℚ) * fps⌋).toNat len - (⌊(s : ℚ) * fps⌋).toNat) =
        List.range' (g s) (g (s + 1) - g s) := by
      by_cases hcase : (⌊(s : ℚ) * fps⌋).toNat ≤ len
      · have hgs : g s = (⌊(s : ℚ) * fps⌋).toNat := by
          rw [hg]; simp only []; omega
        have hgs1 : g (s + 1) = min (⌊((s + 1 : ℕ) : ℚ) * fps⌋).toNat len := by
          rw [hg]
        rw [hgs, hgs1]
      · have hzero1 : min (⌊((s + 1 : ℕ) : ℚ) * fps⌋).toNat len -
            (⌊(s : ℚ) * fps⌋).toNat = 0 := by
          have : min (⌊((s + 1 : ℕ) : ℚ) * fps⌋).toNat len ≤ len :=
            Nat.min_le_right _ _
          omega
        have hzero2 : g (s + 1) - g s = 0 := by
          rw [hg]
          simp only []
          have := hfloor_mono s
          omega
        rw [hzero1, hzero2]
        rfl
    rw [hint]
  have hrw : (List.range total).map (fun s => specWindowSum motions fps s) =
      (List.range total).map
        (fun s => ((List.range' (g s) (g (s + 1) - g s)).map
          (fun i => motions.getD i 0)).sum) := by
    apply List.map_congr_left
    intro s _
    rw [hspec s]
  rw [hrw]
  have hmapmap : (List.range total).map
      (fun s => ((List.range' (g s) (g (s + 1) - g s)).map
        (fun i => motions.getD i 0)).sum) =
      ((List.range total).map
        (fun s => (List.range' (g s) (g (s + 1) - g s)).map
          (fun i => motions.getD i 0))).map List.sum := by
    rw [List.map_map]
    rfl
  rw [hmapmap, ← List.sum_flatten]
  have hflatten : ((List.range total).map
      (fun s => (List.range' (g s) (g (s + 1) - g s)).map
        (fun i => motions.getD i 0))).flatten =
      (((List.range total).map
        (fun s => List.range' (g s) (g (s + 1) - g s))).flatten).map
        (fun i => motions.getD i 0) := by
    rw [List.map_flatten, List.map_map]
    rfl
  rw [hflatten, chunks_flatten g hgmono total, hg0, hgtotal, Nat.sub_zero,
    ← List.range_eq_range', hlen, map_getD_range]

/-- Witness for C7 at motions `[1.0, 2.0]`, `fps = 1`, `start_second = 0`. -/
theorem C7_witness :
    (0 : ℚ) < 1 ∧
    ((CalMoving.aggregate_by_second [(1 : ℚ), 2] 1 0).map
        (fun p => p.2)).sum = ([(1 : ℚ), 2]).sum :=
  ⟨by norm_num, C7_aggregation_conserves_total [(1 : ℚ), 2] 1 0 (by norm_num)⟩

theorem classify_motion_values (d : List (Int × ℚ)) (th : ℚ) (k : Int)
    (v : Int) (h : dictFind? (Evaluate.classify_motion d th) k = some v) :
    v = 0 ∨ v = 1 := by
  rw [Evaluate.classify_motion] at h
  have hfold : d.foldl
      (fun c p => pyInsert c p.1 (if p.2 ≥ th then 1 else 0)) [] =
      (d.map (fun p => (p.1, if p.2 ≥ th then (1 : Int) else 0))).foldl
        (fun c p => pyInsert c p.1 p.2) [] := by
    rw [List.foldl_map]
  rw [hfold, dictFind?_foldl_pyInsert] at h
  have hnil : dictFind? ([] : List (Int × Int)) k = none := rfl
  rw [hnil, Option.or_none] at h
  unfold lastVal? at h
  rcases Option.map_eq_some'.mp h with ⟨p, hfind, hval⟩
  have hmem := List.mem_of_find?_eq_some hfind
  rcases List.mem_map.mp (List.mem_reverse.mp hmem) with ⟨q, _, hq⟩
  rw [← hq] at hval
  by_cases hth : q.2 ≥ th
  · right; rw [← hval]; simp [hth]
  · left; rw [← hval]; simp [hth]

theorem cm_step_sum (pairs : List (Int × Int)) (c0 : ℕ × ℕ × ℕ × ℕ)
    (h : ∀ p ∈ pairs, (p.1 = 0 ∨ p.1 = 1) ∧ (p.2 = 0 ∨ p.2 = 1)) :
    Evaluate.cmSum (pairs.foldl
      (fun c p =>
        if p.1 = 0 ∧ p.2 = 0 then (c.1 + 1, c.2.1, c.2.2.1, c.2.2.2)
        else if p.1 = 0 ∧ p.2 = 1 then (c.1, c.2.1 + 1, c.2.2.1, c.2.2.2)
        else if p.1 = 1 ∧ p.2 = 0 then (c.1, c.2.1, c.2.2.1 + 1, c.2.2.2)
        else if p.1 = 1 ∧ p.2 = 1 then (c.1, c.2.1, c.2.2.1, c.2.2.2 + 1)
        else c) c0) = Evaluate.cmSum c0 + pairs.length := by
  induction pairs generalizing c0 with
  | nil => simp
  | cons p rest ih =>
    rw [List.foldl_cons]
    rcases h p (List.mem_cons_self p rest) with ⟨h1, h2⟩
    have hrest : ∀ q ∈ rest, (q.1 = 0 ∨ q.1 = 1) ∧ (q.2 = 0 ∨ q.2 = 1) :=
      fun q hq => h q (List.mem_cons_of_mem p hq)
    have hone : ∀ c : ℕ × ℕ × ℕ × ℕ, Evaluate.cmSum
        (if p.1 = 0 ∧ p.2 = 0 then (c.1 + 1, c.2.1, c.2.2.1, c.2.2.2)
         else if p.1 = 0 ∧ p.2 = 1 then (c.1, c.2.1 + 1, c.2.2.1, c.2.2.2)
         else if p.1 = 1 ∧ p.2 = 0 then (c.1, c.2.1, c.2.2.1 + 1, c.2.2.2)
         else if p.1 = 1 ∧ p.2 = 1 then (c.1, c.2.1, c.2.2.1, c.2.2.2 + 1)
         else c) = Evaluate.cmSum c + 1 := by
      intro c
      rcases h1 with h1 | h1 <;> rcases h2 with h2 | h2 <;>
        simp [h1, h2, Evaluate.cmSum] <;> omega
    rw [ih _ hrest, hone c0, List.length_cons]
    omega

/-- Claim C6, amended: provided every ground-truth value is the binary `0`
or `1` the annotation format intends, the four confusion-matrix counts over
the aligned pair lists sum to the number of aligned pairs (predictions
produced by classification and alignment are always `0` or `1` by
construction). Without the proviso the claim fails: `read_annotation_data`
accepts any integer, and a pair such as `(2, 0)` matches none of the four
counter branches — see the counterexample. -/
theorem C6_confusion_counts_total_amended (annot : List Int)
    (d : List (Int × ℚ)) (th : ℚ)
    (hbin : ∀ v ∈ annot, v = 0 ∨ v = 1) :
    Evaluate.cmSum
      (Evaluate.calculate_confusion_matrix
        (Evaluate.align_data annot (Evaluate.classify_motion d th)).1
        (Evaluate.align_data annot (Evaluate.classify_motion d th)).2) =
      ((Evaluate.align_data annot (Evaluate.classify_motion d th)).1.zip
        (Evaluate.align_data annot (Evaluate.classify_motion d th)).2).length := by
  rw [Evaluate.calculate_confusion_matrix]
  have hpairs : ∀ p ∈ (Evaluate.align_data annot
      (Evaluate.classify_motion d th)).1.zip
      (Evaluate.align_data annot (Evaluate.classify_motion d th)).2,
      (p.1 = 0 ∨ p.1 = 1) ∧ (p.2 = 0 ∨ p.2 = 1) := by
    intro p hp
    have hmem := List.mem_zip hp
    constructor
    · rcases List.mem_map.mp hmem.1 with ⟨s, _, hs⟩
      rw [← hs]
      rw [List.getD_eq_getElem?_getD]
      cases hg : annot[s]? with
      | none => simp
      | some a =>
        have : a ∈ annot := List.getElem?_mem hg
        simpa using hbin a this
    · rcases List.mem_map.mp hmem.2 with ⟨s, _, hs⟩
      rw [← hs]
      rw [dictGetD]
      cases hg : dictFind? (Evaluate.classify_motion d th) (s : Int) with
      | none => simp
      | some v =>
        simpa using classify_motion_values d th (s : Int) v hg
  rw [cm_step_sum _ _ hpairs]
  simp [Evaluate.cmSum]

/-- Counterexample to claim C6 as stated: the annotation file content `"2"`
parses to the ground-truth list `[2]`; aligned against the classification of
the motion table `{5: 3.0}` at threshold `1`, the pair `(2, 0)` falls in no
confusion-matrix cell, so the four counts sum to `0`, not to the number of
aligned pairs (`1`). -/
theorem C6_counterexample :
    Evaluate.cmSum
      (Evaluate.calculate_confusion_matrix
        (Evaluate.align_data [2] (Evaluate.classify_motion [((5 : Int), (3 : ℚ))] 1)).1
        (Evaluate.align_data [2] (Evaluate.classify_motion [((5 : Int), (3 : ℚ))] 1)).2) ≠
      ((Evaluate.align_data [2] (Evaluate.classify_motion [((5 : Int), (3 : ℚ))] 1)).1.zip
        (Evaluate.align_data [2] (Evaluate.classify_motion [((5 : Int), (3 : ℚ))] 1)).2).length := by
  decide

/-- Witness for the amended C6 at annotation `[1, 0]`, motion table
`{0: 3.0}`, threshold `1`. -/
theorem C6_witness :
    (∀ v ∈ [(1 : Int), 0], v = 0 ∨ v = 1) ∧
    Evaluate.cmSum
      (Evaluate.calculate_confusion_matrix
        (Evaluate.align_data [1, 0] (Evaluate.classify_motion [((0 : Int), (3 : ℚ))] 1)).1
        (Evaluate.align_data [1, 0] (Evaluate.classify_motion [((0 : Int), (3 : ℚ))] 1)).2) =
      ((Evaluate.align_data [1, 0] (Evaluate.classify_motion [((0 : Int), (3 : ℚ))] 1)).1.zip
        (Evaluate.align_data [1, 0] (Evaluate.classify_motion [((0 : Int), (3 : ℚ))] 1)).2).length :=
  ⟨by decide,
    C6_confusion_counts_total_amended [1, 0] [((0 : Int), (3 : ℚ))] 1 (by decide)⟩

instance : DecidableRel (fun f g : SegFile => f.name ≤ g.name) :=
  fun f g => inferInstanceAs (Decidable (f.name ≤ g.name))

instance : IsTotal SegFile (fun f g : SegFile => f.name ≤ g.name) :=
  ⟨fun a b => le_total a.name b.name⟩

instance : IsTrans SegFile (fun f g : SegFile => f.name ≤ g.name) :=
  ⟨fun _ _ _ hab hbc => le_trans hab hbc⟩

instance : IsAntisymm SegFile (fun f g : SegFile => f.name < g.name) :=
  ⟨fun _ _ h1 h2 => absurd h1 (lt_asymm h2)⟩

/-- Two listings of the same files with pairwise-distinct names sort (by
name, as Python `sorted` does) to the same list. -/
theorem sort_eq_of_perm (l₁ l₂ : List SegFile) (hperm : l₁.Perm l₂)
    (hnd : (l₁.map SegFile.name).Nodup) :
    List.insertionSort (fun f g : SegFile => f.name ≤ g.name) l₁ =
      List.insertionSort (fun f g : SegFile => f.name ≤ g.name) l₂ := by
  have hs1 := List.sorted_insertionSort (fun f g : SegFile => f.name ≤ g.name) l₁
  have hs2 := List.sorted_insertionSort (fun f g : SegFile => f.name ≤ g.name) l₂
  have hp : (List.insertionSort (fun f g : SegFile => f.name ≤ g.name) l₁).Perm
      (List.insertionSort (fun f g : SegFile => f.name ≤ g.name) l₂) :=
    ((List.perm_insertionSort _ l₁).trans hperm).trans
      (List.perm_insertionSort _ l₂).symm
  have hnd2 : (l₂.map SegFile.name).Nodup := (hperm.map SegFile.name).nodup hnd
  have hnds1 : ((List.insertionSort (fun f g : SegFile => f.name ≤ g.name)
      l₁).map SegFile.name).Nodup :=
    ((List.perm_insertionSort _ l₁).map SegFile.name).symm.nodup hnd
  have hnds2 : ((List.insertionSort (fun f g : SegFile => f.name ≤ g.name)
      l₂).map SegFile.name).Nodup :=
    ((List.perm_insertionSort _ l₂).map SegFile.name).symm.nodup hnd2
  have hstrict1 : List.Sorted (fun f g : SegFile => f.name < g.name)
      (List.insertionSort (fun f g : SegFile => f.name ≤ g.name) l₁) :=
    (hs1.and (List.pairwise_map.mp hnds1)).imp
      (fun hab => lt_of_le_of_ne hab.1 hab.2)
  have hstrict2 : List.Sorted (fun f g : SegFile => f.name < g.name)
      (List.insertionSort (fun f g : SegFile => f.name ≤ g.name) l₂) :=
    (hs2.and (List.pairwise_map.mp hnds2)).imp
      (fun hab => lt_of_le_of_ne hab.1 hab.2)
  exact List.eq_of_perm_of_sorted hp hstrict1 hstrict2

/-- Claim C9, amended: `evaluate.py` (and the line-identical reader in
`create_walking_classification_video.py`) sorts the selected file names
before iterating, so for a fixed set of input files with distinct names its
global motion table is independent of the directory-listing order.
`plot_move_amount_per_min.py` iterates in raw `os.listdir` order without
sorting, so its table does depend on the listing order when two files
assign the same second — see the counterexample. -/
theorem C9_sorted_reader_order_independent (l₁ l₂ : List SegFile)
    (hperm : l₁.Perm l₂) (hnd : (l₁.map SegFile.name).Nodup) :
    Evaluate.read_motion_data l₁ = Evaluate.read_motion_data l₂ := by
  rw [Evaluate.read_motion_data, Evaluate.read_motion_data]
  have hfperm : (l₁.filter (fun f => evalSelect f.name)).Perm
      (l₂.filter (fun f => evalSelect f.name)) :=
    hperm.filter _
  have hfnd : ((l₁.filter (fun f => evalSelect f.name)).map SegFile.name).Nodup :=
    List.Nodup.sublist (List.Sublist.map _ (List.filter_sublist l₁)) hnd
  rw [sort_eq_of_perm _ _ hfperm hfnd]

/-- Counterexample to claim C9 as stated: `plot_move_amount_per_min`'s
reader does not sort — two overlapping segment files presented in the two
possible listing orders yield different global tables, so not every stage
that reads the segment directory is listing-order independent. -/
theorem C9_counterexample :
    ([⟨"2-3sec.txt".data, [[none], [some 5, some 1]]⟩,
      ⟨"0-1sec.txt".data, [[none], [some 5, some 2]]⟩] : List SegFile).Perm
      [⟨"0-1sec.txt".data, [[none], [some 5, some 2]]⟩,
       ⟨"2-3sec.txt".data, [[none], [some 5, some 1]]⟩] ∧
    PlotPerMin.read_motion_data
      [⟨"2-3sec.txt".data, [[none], [some 5, some 1]]⟩,
       ⟨"0-1sec.txt".data, [[none], [some 5, some 2]]⟩] ≠
    PlotPerMin.read_motion_data
      [⟨"0-1sec.txt".data, [[none], [some 5, some 2]]⟩,
       ⟨"2-3sec.txt".data, [[none], [some 5, some 1]]⟩] :=
  ⟨List.Perm.swap _ _ [], by decide⟩

/-- Witness for the amended C9: the sorted reader gives the same table for
the two listing orders of the same two (overlapping) files. -/
theorem C9_witness :
    Evaluate.read_motion_data
      [⟨"2-3sec.txt".data, [[none], [some 5, some 1]]⟩,
       ⟨"0-1sec.txt".data, [[none], [some 5, some 2]]⟩] =
    Evaluate.read_motion_data
      [⟨"0-1sec.txt".data, [[none], [some 5, some 2]]⟩,
       ⟨"2-3sec.txt".data, [[none], [some 5, some 1]]⟩] :=
  C9_sorted_reader_order_independent _ _ (List.Perm.swap _ _ []) (by decide)

theorem except_bind_ok {α β γ : Type} (x : β) (k : β → Except α γ) :
    (Except.ok x >>= k) = k x := rfl

theorem except_bind_fail {α β γ : Type} (e : α) (k : β → Except α γ) :
    ((Except.error e : Except α β) >>= k) = Except.error e := rfl

/-- Claim C5, amended: only `plot_move_amount_per_min.read_motion_data`
loads the rows of a `sec.txt`-suffixed file whose name does not match the
`"<start>-<end>sec.txt"` pattern without aborting (its table is exactly the
file's parsed rows, last write winning); in `evaluate.py` and the
line-identical `create_walking_classification_video.py` reader, the
filename-offset unpacking raises an uncaught `ValueError` on such a name
and the run aborts before any row of it is loaded. -/
theorem C5_nonmatching_name_readers (name : List Char) (rows : List Row)
    (hplot : plotSelect name = true) (hpat : nameOffsets name = none) :
    (∀ k : Int,
      dictFind? (PlotPerMin.read_motion_data [⟨name, rows⟩]) k =
        lastVal? (fileAssigns ⟨name, rows⟩) k) ∧
    (evalSelect name = true →
      Evaluate.read_motion_data [⟨name, rows⟩] = Except.error ()) := by
  constructor
  · intro k
    rw [PlotPerMin.read_motion_data]
    have hfil : ([⟨name, rows⟩] : List SegFile).filter
        (fun f => plotSelect f.name) = [⟨name, rows⟩] := by
      simp [hplot]
    rw [hfil]
    cases rows with
    | nil => rfl
    | cons hdr dr =>
      rw [List.foldl_cons, List.foldl_nil]
      show dictFind? (rowFold [] dr) k = _
      rw [rowFold_eq_foldl_assigns, dictFind?_foldl_pyInsert]
      have hnil : dictFind? ([] : List (Int × ℚ)) k = none := rfl
      rw [hnil, Option.or_none]
      rfl
  · intro heval
    rw [Evaluate.read_motion_data]
    have hfil : ([⟨name, rows⟩] : List SegFile).filter
        (fun f => evalSelect f.name) = [⟨name, rows⟩] := by
      simp [heval]
    rw [hfil]
    have hsort : List.insertionSort (fun a b : SegFile => a.name ≤ b.name)
        [⟨name, rows⟩] = [⟨name, rows⟩] := rfl
    rw [hsort, List.foldlM_cons]
    simp only [hpat]
    rfl

/-- Counterexample to claim C5 as stated: a file named `"foosec.txt"` ends
in `sec.txt` but does not match the range pattern; `evaluate.py`'s reader
(and `create_walking_classification_video.py`'s) aborts on it instead of
loading its rows. -/
theorem C5_counterexample :
    evalSelect ("foosec.txt".data) = true ∧
    nameOffsets ("foosec.txt".data) = none ∧
    Evaluate.read_motion_data
      [⟨"foosec.txt".data, [[none, none], [some 0, some 5]]⟩] =
      Except.error () :=
  ⟨by decide, by decide, by rfl⟩

/-- Witness for the amended C5 at the file `"foosec.txt"` with one data row
`(0, 5.0)`: the plot reader loads its rows. -/
theorem C5_witness :
    plotSelect ("foosec.txt".data) = true ∧
    nameOffsets ("foosec.txt".data) = none ∧
    dictFind? (PlotPerMin.read_motion_data
      [⟨"foosec.txt".data, [[none, none], [some 0, some 5]]⟩]) 0 =
      lastVal? (fileAssigns
        ⟨"foosec.txt".data, [[none, none], [some 0, some 5]]⟩) 0 :=
  ⟨by decide, by decide,
    (C5_nonmatching_name_readers ("foosec.txt".data)
      [[none, none], [some 0, some 5]] (by decide) (by decide)).1 0⟩

/-- Claim C8: in the sorted stitcher of `evaluate.py` (line-identical in
`create_walking_classification_video.py`), for two selected segment files
with `f.name < g.name` (so `g` is processed later in the lexicographic
order `sorted` establishes), the stitched table holds, at every second `g`
assigns, `g`'s value — silently overwriting `f`'s at overlapping keys — and
at every second `g` does not assign it holds `f`'s value, i.e. for
non-overlapping segments the table is the union of the two segment tables. -/
theorem C8_lex_later_segment_overwrites (f g : SegFile) (d : List (Int × ℚ))
    (hlt : f.name < g.name)
    (hfsel : evalSelect f.name = true) (hgsel : evalSelect g.name = true)
    (hok : Evaluate.read_motion_data [f, g] = Except.ok d) (k : Int) :
    (∀ v : ℚ, lastVal? (fileAssigns g) k = some v → dictFind? d k = some v) ∧
    (lastVal? (fileAssigns g) k = none →
      dictFind? d k = lastVal? (fileAssigns f) k) := by
  rw [Evaluate.read_motion_data] at hok
  have hfil : ([f, g] : List SegFile).filter (fun x => evalSelect x.name) =
      [f, g] := by
    simp [hfsel, hgsel]
  rw [hfil] at hok
  have hsort : List.insertionSort (fun a b : SegFile => a.name ≤ b.name)
      [f, g] = [f, g] := by
    simp [List.insertionSort, List.orderedInsert, le_of_lt hlt]
  rw [hsort, List.foldlM_cons] at hok
  cases hpf : nameOffsets f.name with
  | none =>
    rw [hpf] at hok
    exact absurd hok (by simp [except_bind_fail])
  | some abf =>
    rw [hpf] at hok
    cases hrf : f.rows with
    | nil =>
      rw [hrf] at hok
      exact absurd hok (by simp [except_bind_fail])
    | cons fh fdr =>
      rw [hrf, except_bind_ok, List.foldlM_cons] at hok
      cases hpg : nameOffsets g.name with
      | none =>
        rw [hpg] at hok
        exact absurd hok (by simp [except_bind_fail])
      | some abg =>
        rw [hpg] at hok
        cases hrg : g.rows with
        | nil =>
          rw [hrg] at hok
          exact absurd hok (by simp [except_bind_fail])
        | cons gh gdr =>
          rw [hrg, except_bind_ok, List.foldlM_nil] at hok
          have hd : d = rowFold (rowFold [] fdr) gdr :=
            (Except.ok.inj hok).symm
          have hga : fileAssigns g = gdr.filterMap parsedRow? := by
            rw [fileAssigns, hrg]
            rfl
          have hfa : fileAssigns f = fdr.filterMap parsedRow? := by
            rw [fileAssigns, hrf]
            rfl
          have hlook : dictFind? d k =
              (lastVal? (fileAssigns g) k).or (lastVal? (fileAssigns f) k) := by
            rw [hd, rowFold_eq_foldl_assigns, dictFind?_foldl_pyInsert,
              rowFold_eq_foldl_assigns, dictFind?_foldl_pyInsert, hga, hfa]
            have hnil : dictFind? ([] : List (Int × ℚ)) k = none := rfl
            rw [hnil, Option.or_none]
          constructor
          · intro v hv
            rw [hlook, hv]
            rfl
          · intro hnone
            rw [hlook, hnone, Option.none_or]

/-- Witness for C8 at the overlapping files `"0-1sec.txt"` (row `(0, 1.0)`)
and `"1-2sec.txt"` (row `(0, 2.0)`): the lexicographically later file's
value `2.0` is what the stitched table holds at second 0. -/
theorem C8_witness :
    lastVal? (fileAssigns
      ⟨"1-2sec.txt".data, [[none], [some 0, some 2]]⟩) 0 = some 2 ∧
    dictFind? [((0 : Int), (2 : ℚ))] 0 = some 2 :=
  ⟨by decide,
    (C8_lex_later_segment_overwrites
      ⟨"0-1sec.txt".data, [[none], [some 0, some 1]]⟩
      ⟨"1-2sec.txt".data, [[none], [some 0, some 2]]⟩
      [((0 : Int), (2 : ℚ))] (by decide) (by decide) (by decide) (by rfl) 0).1
      2 (by decide)⟩
